import Mathlib

/-!
Shallow embedding of the tabular cleaning pipeline of `src/app.py`
(a streamlit/pandas data-cleaning application).

A pandas DataFrame is modelled as a header (the ordered column names)
together with a rectangular list of rows; a cell is a number (exact
rational), a text value, a boolean, or the missing/NaN marker.
Character-level string operations model the ASCII fragment of the
Python/pandas behaviour of `str.strip`, `str.lower`, `str.replace`,
and the regex character classes used by `clean_column_names`.
-/

/-- A cell of the in-memory table: numeric, text, boolean, or missing (NaN). -/
inductive Cell where
  | num  (q : ℚ)
  | text (s : String)
  | bool (b : Bool)
  | missing
deriving DecidableEq

/-- An in-memory table: ordered column names plus rows of cells, modelling a
pandas DataFrame. -/
structure Table where
  header : List String
  rows : List (List Cell)
deriving DecidableEq

/-- A table is rectangular: every row has exactly one cell per column.
pandas guarantees this for every DataFrame. -/
def rect (t : Table) : Bool :=
  t.rows.all (fun r => r.length == t.header.length)

/-- True exactly on the missing/NaN marker (pandas `isnull`). -/
def Cell.isMissing : Cell → Bool
  | .missing => true
  | _ => false

/-- Column `j` of the table, as read by indexing the DataFrame with a column
label; the default value is irrelevant on rectangular tables. -/
def colCells (t : Table) (j : Nat) : List Cell :=
  t.rows.map (fun r => r.getD j Cell.missing)

/-- ASCII fragment of Python's whitespace: the ASCII characters accepted by
both `str.strip()` (via `str.isspace`) and the regex class `\s`, namely TAB,
LF, VT, FF, CR (codes 9-13), the separators FS, GS, RS, US (codes 28-31) and
the space (code 32).  Python also treats some non-ASCII characters (NBSP,
NEL, ...) as whitespace; those are outside the modelled fragment, so the
claims about arbitrary column names restrict the names to ASCII. -/
def pyIsSpace (c : Char) : Bool :=
  decide (c.toNat = 32 ∨ (9 ≤ c.toNat ∧ c.toNat ≤ 13) ∨
    (28 ≤ c.toNat ∧ c.toNat ≤ 31))

/-- ASCII fragment of the regex word class `\w`: letters, digits, underscore.
Python's `\w` also matches non-ASCII word characters; those are outside the
modelled fragment, so the claims about arbitrary column names restrict the
names to ASCII, where this definition is exact. -/
def pyIsWord (c : Char) : Bool :=
  decide ((65 ≤ c.toNat ∧ c.toNat ≤ 90) ∨ (97 ≤ c.toNat ∧ c.toNat ≤ 122) ∨
    (48 ≤ c.toNat ∧ c.toNat ≤ 57) ∨ c.toNat = 95)

/-- Python `str.lower()` on one character (ASCII fragment): shift an
uppercase letter (codes 65-90) down by 32, leave everything else alone.
Exact on ASCII; Python also lowercases non-ASCII letters, outside the
modelled fragment. -/
def pyToLower (c : Char) : Char :=
  if 65 ≤ c.toNat ∧ c.toNat ≤ 90 then Char.ofNat (c.toNat + 32) else c

/-- Python `str.strip()`: drop leading and trailing whitespace. -/
def pyStrip (l : List Char) : List Char :=
  ((l.dropWhile pyIsSpace).reverse.dropWhile pyIsSpace).reverse

/-- Python `str.lower()` on a whole string (ASCII fragment). -/
def pyLowerStr (l : List Char) : List Char := l.map pyToLower

/-- pandas `.str.replace(' ', '_')`: replace every space character (code 32)
by an underscore.  Other whitespace characters are not substituted. -/
def replaceSpaceUnderscore (l : List Char) : List Char :=
  l.map (fun c => if c.toNat = 32 then '_' else c)

/-- pandas `.str.replace('[^\w\s]', '', regex=True)`: drop every character
that is neither a word character nor whitespace. -/
def stripNonWordSpace (l : List Char) : List Char :=
  l.filter (fun c => pyIsWord c || pyIsSpace c)

/-- The column-name transform of `clean_column_names` (src/app.py, lines
86-90): strip, then lower, then replace each space by an underscore, then
remove every non word/space character. -/
def cleanName (s : String) : String :=
  ⟨stripNonWordSpace (replaceSpaceUnderscore (pyLowerStr (pyStrip s.data)))⟩

/-- `clean_column_names` (src/app.py, lines 86-90): rename every column,
leaving the row data untouched. -/
def clean_column_names (t : Table) : Table :=
  { t with header := t.header.map cleanName }

/-- Keep-first deduplication with an accumulator of already-seen elements:
the semantics of pandas `drop_duplicates()` with its default keep-first
behaviour. -/
def dedupAux {α : Type} [DecidableEq α] (seen : List α) : List α → List α
  | [] => []
  | a :: l => if a ∈ seen then dedupAux seen l else a :: dedupAux (a :: seen) l

/-- pandas `df.drop_duplicates()`. -/
def drop_duplicates {α : Type} [DecidableEq α] (l : List α) : List α :=
  dedupAux [] l

/-- `remove_duplicates` (src/app.py, lines 92-97): drop duplicate rows and
report how many rows were removed (original row count minus new row count,
shown to the user as an informational message). -/
def remove_duplicates (t : Table) : Table × Nat :=
  let kept := drop_duplicates t.rows
  ({ t with rows := kept }, t.rows.length - kept.length)

/-- The numeric values of a column, ignoring every non-numeric cell;
pandas reductions such as `mean` and `median` skip NaN entries. -/
def cellVals (cells : List Cell) : List ℚ :=
  cells.filterMap (fun c => match c with | .num q => some q | _ => none)

/-- A pandas column has a numeric dtype exactly when every cell is a number
or NaN; this is the column set selected by
`df.select_dtypes(include=[np.number])` (bool and object columns are not
numeric dtypes). -/
def numericCells (cells : List Cell) : Bool :=
  cells.all (fun c => match c with | .num _ => true | .missing => true | _ => false)

/-- Arithmetic mean (pandas `Series.mean` over the non-missing values). -/
def meanQ (vs : List ℚ) : ℚ := vs.sum / vs.length

/-- Insert into a sorted list of rationals. -/
def insertSorted (x : ℚ) : List ℚ → List ℚ
  | [] => [x]
  | y :: ys => if x ≤ y then x :: y :: ys else y :: insertSorted x ys

/-- Insertion sort, ascending. -/
def sortQ (l : List ℚ) : List ℚ := l.foldr insertSorted []

/-- Median (pandas `Series.median` over the non-missing values): the middle
element for an odd count, the average of the two middle elements for an
even count. -/
def medianQ (vs : List ℚ) : ℚ :=
  let ss := sortQ vs
  if ss.length % 2 = 1 then ss.getD (ss.length / 2) 0
  else (ss.getD (ss.length / 2 - 1) 0 + ss.getD (ss.length / 2) 0) / 2

/-- The value `fillna` receives for one column of the `select_dtypes` loop:
`stat` of the non-missing values of a numeric column.  pandas returns NaN
when every cell of the column is missing, and filling with NaN changes
nothing; that no-op case is modelled by `none`, as is a non-numeric column,
which the loop skips entirely. -/
def fillValue (stat : List ℚ → ℚ) (cells : List Cell) : Option ℚ :=
  if numericCells cells then
    if cellVals cells = [] then none else some (stat (cellVals cells))
  else none

/-- `fillna` on a single cell: replace the missing marker by the column's
fill value; leave non-missing cells, and columns without a fill value,
unchanged. -/
def applyFill : Cell → Option ℚ → Cell
  | .missing, some v => .num v
  | c, _ => c

/-- The per-column fill values computed by the `select_dtypes` loop of
`handle_missing_values`. -/
def fillsOf (stat : List ℚ → ℚ) (t : Table) : List (Option ℚ) :=
  (List.range t.header.length).map (fun j => fillValue stat (colCells t j))

/-- The loop of `handle_missing_values` over the numeric columns: each
numeric column has its missing cells filled with `stat` of its non-missing
values; every other cell is untouched. -/
def fillNumeric (stat : List ℚ → ℚ) (t : Table) : Table :=
  { t with rows := t.rows.map (fun r => List.zipWith applyFill r (fillsOf stat t)) }

/-- `df.fillna(0)` on one cell: a missing cell becomes the number 0, every
other cell is unchanged. -/
def fillZeroCell : Cell → Cell
  | .missing => Cell.num 0
  | c => c

/-- `handle_missing_values` (src/app.py, lines 99-111): dispatch on the
method string exactly as the source's if/elif chain does; an unknown method
string leaves the table unchanged. -/
def handle_missing_values (t : Table) (method : String) : Table :=
  if method = "Remove rows" then
    { t with rows := t.rows.filter (fun r => !r.any Cell.isMissing) }
  else if method = "Fill with mean" then fillNumeric meanQ t
  else if method = "Fill with median" then fillNumeric medianQ t
  else if method = "Fill with zero" then
    { t with rows := t.rows.map (fun r => r.map fillZeroCell) }
  else t

/-- The query `df.isnull().values.any()` (src/app.py, line 155): does the
table contain at least one missing cell? -/
def hasMissingValues (t : Table) : Bool :=
  t.rows.any (fun r => r.any Cell.isMissing)

/-- One stage of the upload-through-render pipeline (file ingestion, one of
the transforms, charting, export): a stage either produces the next table
state or raises an exception carrying its description. -/
abbrev Stage := Table → Except String Table

/-- Run the pipeline stages in order; the first exception aborts all the
remaining stages (Python exception propagation inside the `try` block of
src/app.py, lines 126-228). -/
def runStages : Table → List Stage → Except String Table
  | t, [] => .ok t
  | t, f :: fs =>
    match f t with
    | .ok t2 => runStages t2 fs
    | .error e => .error e

/-- The catch-all boundary of src/app.py (lines 126-231): the whole pipeline
runs inside a single `try`; on success the final table stands, and on any
exception the user is shown the single message consisting of the prefix
"An error occurred: " followed by the exception's description. -/
def run_pipeline (t : Table) (fs : List Stage) : Table ⊕ String :=
  match runStages t fs with
  | .ok t2 => .inl t2
  | .error e => .inr ("An error occurred: " ++ e)

/-- Reference transform from the spec's words for claim C1: replace each
internal whitespace run by a single underscore.  The Boolean flag records
whether the previous character was whitespace, so a whole run yields one
underscore. -/
def collapseWsAux : Bool → List Char → List Char
  | _, [] => []
  | prevWs, c :: cs =>
    if pyIsSpace c then
      if prevWs then collapseWsAux true cs else '_' :: collapseWsAux true cs
    else c :: collapseWsAux false cs

/-- The spec's reference column-name transform (claim C1): trim, lowercase,
collapse each whitespace run to a single underscore, strip every character
that is not alphanumeric, underscore or whitespace. -/
def specRefName (s : String) : String :=
  ⟨stripNonWordSpace (collapseWsAux false (pyLowerStr (pyStrip s.data)))⟩

/-- Per-character space-to-underscore substitution written recursively: the
amended reference transform for claim C1. -/
def replaceSpacesRec : List Char → List Char
  | [] => []
  | c :: cs => (if c.toNat = 32 then '_' else c) :: replaceSpacesRec cs

/-- The amended reference column-name transform: trim, lowercase, replace
each space character by an underscore, strip every character that is not
alphanumeric, underscore or whitespace. -/
def amendedRefName (s : String) : String :=
  ⟨stripNonWordSpace (replaceSpacesRec (pyLowerStr (pyStrip s.data)))⟩

/-- Reference deduplication from claim C3's words: keep the first occurrence
of each row, remove every later exact duplicate of it, and continue with
what remains. -/
def keepFirstRef {α : Type} [DecidableEq α] : List α → List α
  | [] => []
  | a :: l => a :: keepFirstRef (l.filter (fun x => decide (x ≠ a)))
termination_by l => l.length
decreasing_by
  simp only [List.length_cons]
  exact Nat.lt_succ_of_le (List.length_filter_le _ _)

/-- A character allowed by the spec's output pattern for column names:
lowercase ASCII letter, ASCII digit, or underscore. -/
def isSnake (c : Char) : Bool :=
  decide ((97 ≤ c.toNat ∧ c.toNat ≤ 122) ∨ (48 ≤ c.toNat ∧ c.toNat ≤ 57) ∨
    c.toNat = 95)

/-- Does a string consist only of lowercase letters, digits and underscores? -/
def matchesSnake (s : String) : Bool := s.data.all isSnake

/-- Every column name of the table consists only of ASCII characters, and
every whitespace character in it is a plain space (no tab, newline, etc.).
The ASCII restriction keeps the names inside the fragment on which the
modelled character classes agree exactly with Python's. -/
def asciiOnlySpaceWs (t : Table) : Bool :=
  t.header.all (fun s => s.data.all (fun c =>
    decide (c.toNat < 128) && (!pyIsSpace c || decide (c.toNat = 32))))

theorem char_toNat_ofNat_of_valid {n : Nat} (h : n.isValidChar) :
    (Char.ofNat n).toNat = n := by
  unfold Char.ofNat
  rw [dif_pos h]
  rfl

theorem toNat_pyToLower (c : Char) :
    (pyToLower c).toNat =
      if 65 ≤ c.toNat ∧ c.toNat ≤ 90 then c.toNat + 32 else c.toNat := by
  unfold pyToLower
  by_cases h : 65 ≤ c.toNat ∧ c.toNat ≤ 90
  · rw [if_pos h, if_pos h]
    exact char_toNat_ofNat_of_valid (Or.inl (by omega))
  · rw [if_neg h, if_neg h]

theorem mem_pyStrip {a : Char} {l : List Char} (h : a ∈ pyStrip l) : a ∈ l := by
  unfold pyStrip at h
  rw [List.mem_reverse] at h
  have h2 := List.dropWhile_subset pyIsSpace h
  rw [List.mem_reverse] at h2
  exact List.dropWhile_subset pyIsSpace h2

theorem pyToLower_eq_self_of_isSnake {c : Char} (h : isSnake c = true) :
    pyToLower c = c := by
  unfold isSnake at h
  rw [decide_eq_true_eq] at h
  unfold pyToLower
  rw [if_neg (by omega)]

theorem not_space_of_isSnake {c : Char} (h : isSnake c = true) :
    pyIsSpace c = false := by
  unfold isSnake at h
  rw [decide_eq_true_eq] at h
  unfold pyIsSpace
  rw [decide_eq_false_iff_not]
  omega

theorem word_or_space_of_isSnake {c : Char} (h : isSnake c = true) :
    (pyIsWord c || pyIsSpace c) = true := by
  unfold isSnake at h
  rw [decide_eq_true_eq] at h
  have hw : pyIsWord c = true := by
    unfold pyIsWord
    rw [decide_eq_true_eq]
    omega
  rw [hw, Bool.true_or]

theorem toNat_ne_32_of_isSnake {c : Char} (h : isSnake c = true) :
    c.toNat ≠ 32 := by
  unfold isSnake at h
  rw [decide_eq_true_eq] at h
  omega

theorem isSnake_of_mem_cleanPipeline {l : List Char}
    (hws : ∀ c ∈ l, pyIsSpace c = true → c.toNat = 32) {c : Char}
    (hc : c ∈ stripNonWordSpace (replaceSpaceUnderscore (pyLowerStr (pyStrip l)))) :
    isSnake c = true := by
  unfold stripNonWordSpace at hc
  obtain ⟨hmem, hcond⟩ := List.mem_filter.mp hc
  unfold replaceSpaceUnderscore at hmem
  obtain ⟨b, hb, hbc⟩ := List.mem_map.mp hmem
  unfold pyLowerStr at hb
  obtain ⟨a, ha, hab⟩ := List.mem_map.mp hb
  have hal : a ∈ l := mem_pyStrip ha
  by_cases h32 : b.toNat = 32
  · rw [if_pos h32] at hbc
    subst hbc
    decide
  · rw [if_neg h32] at hbc
    subst hbc
    subst hab
    have hto := toNat_pyToLower a
    unfold isSnake
    rw [decide_eq_true_eq]
    rw [Bool.or_eq_true] at hcond
    rcases hcond with hw | hs
    · unfold pyIsWord at hw
      rw [decide_eq_true_eq] at hw
      by_cases hup : 65 ≤ a.toNat ∧ a.toNat ≤ 90
      · rw [if_pos hup] at hto
        omega
      · rw [if_neg hup] at hto
        omega
    · unfold pyIsSpace at hs
      rw [decide_eq_true_eq] at hs
      by_cases hup : 65 ≤ a.toNat ∧ a.toNat ≤ 90
      · rw [if_pos hup] at hto
        omega
      · rw [if_neg hup] at hto
        have ha32 : a.toNat = 32 := by
          apply hws a hal
          unfold pyIsSpace
          rw [decide_eq_true_eq]
          omega
        omega

theorem matchesSnake_cleanName {s : String}
    (hws : ∀ c ∈ s.data, pyIsSpace c = true → c.toNat = 32) :
    matchesSnake (cleanName s) = true := by
  show (stripNonWordSpace (replaceSpaceUnderscore (pyLowerStr (pyStrip s.data)))).all isSnake = true
  rw [List.all_eq_true]
  intro c hc
  exact isSnake_of_mem_cleanPipeline hws hc

theorem dropWhile_pyIsSpace_eq_self {l : List Char}
    (h : ∀ c ∈ l, pyIsSpace c = false) : l.dropWhile pyIsSpace = l := by
  cases l with
  | nil => rfl
  | cons a l =>
    exact List.dropWhile_cons_of_neg (by simp [h a (List.mem_cons_self a l)])

theorem cleanName_fix {s : String} (h : matchesSnake s = true) :
    cleanName s = s := by
  obtain ⟨l⟩ := s
  have hsn : ∀ x ∈ l, isSnake x = true := by
    intro x hx
    exact List.all_eq_true.mp h x hx
  have h1 : pyStrip l = l := by
    unfold pyStrip
    rw [dropWhile_pyIsSpace_eq_self (fun c hc => not_space_of_isSnake (hsn c hc)),
      dropWhile_pyIsSpace_eq_self
        (fun c hc => not_space_of_isSnake (hsn c (List.mem_reverse.mp hc))),
      List.reverse_reverse]
  have h2 : pyLowerStr l = l := by
    unfold pyLowerStr
    exact (List.map_congr_left
      (fun a ha => pyToLower_eq_self_of_isSnake (hsn a ha))).trans (List.map_id' l)
  have h3 : replaceSpaceUnderscore l = l := by
    unfold replaceSpaceUnderscore
    exact (List.map_congr_left
      (fun a ha => if_neg (toNat_ne_32_of_isSnake (hsn a ha)))).trans (List.map_id' l)
  have h4 : stripNonWordSpace l = l :=
    List.filter_eq_self.mpr (fun a ha => word_or_space_of_isSnake (hsn a ha))
  show (⟨stripNonWordSpace (replaceSpaceUnderscore (pyLowerStr (pyStrip l)))⟩ : String) = ⟨l⟩
  rw [h1, h2, h3, h4]

theorem dedupAux_congr {α : Type} [DecidableEq α] {s₁ s₂ : List α}
    (h : ∀ x, x ∈ s₁ ↔ x ∈ s₂) (l : List α) : dedupAux s₁ l = dedupAux s₂ l := by
  induction l generalizing s₁ s₂ with
  | nil => rfl
  | cons a l ih =>
    show (if a ∈ s₁ then dedupAux s₁ l else a :: dedupAux (a :: s₁) l)
      = (if a ∈ s₂ then dedupAux s₂ l else a :: dedupAux (a :: s₂) l)
    by_cases ha : a ∈ s₁
    · rw [if_pos ha, if_pos ((h a).mp ha)]
      exact ih h
    · rw [if_neg ha, if_neg (fun hc => ha ((h a).mpr hc))]
      exact congrArg (a :: ·) (ih (fun x => by simp only [List.mem_cons, h x]))

theorem dedupAux_cons_seen {α : Type} [DecidableEq α] (a : α) (l : List α) :
    ∀ seen : List α,
      dedupAux (a :: seen) l = dedupAux seen (l.filter (fun x => decide (x ≠ a))) := by
  induction l with
  | nil => intro seen; rfl
  | cons b l ih =>
    intro seen
    by_cases hba : b = a
    · subst hba
      show (if b ∈ b :: seen then dedupAux (b :: seen) l else _) = _
      rw [if_pos (List.mem_cons_self b seen)]
      have hf : (b :: l).filter (fun x => decide (x ≠ b))
          = l.filter (fun x => decide (x ≠ b)) := by
        rw [List.filter_cons_of_neg (by simp)]
      rw [hf]
      exact ih seen
    · have hf : (b :: l).filter (fun x => decide (x ≠ a))
          = b :: l.filter (fun x => decide (x ≠ a)) := by
        rw [List.filter_cons_of_pos (by simp [hba])]
      rw [hf]
      by_cases hbs : b ∈ seen
      · show (if b ∈ a :: seen then _ else _) = (if b ∈ seen then _ else _)
        rw [if_pos (List.mem_cons_of_mem a hbs), if_pos hbs]
        exact ih seen
      · show (if b ∈ a :: seen then _ else _) = (if b ∈ seen then _ else _)
        rw [if_neg (by simp only [List.mem_cons]; tauto), if_neg hbs]
        refine congrArg (b :: ·) ?_
        rw [dedupAux_congr
          (show ∀ x, x ∈ b :: a :: seen ↔ x ∈ a :: b :: seen from
            fun x => by simp only [List.mem_cons]; tauto) l]
        exact ih (b :: seen)

theorem dedupAux_nil_eq_keepFirstRef {α : Type} [DecidableEq α] :
    ∀ (n : Nat) (l : List α), l.length ≤ n → dedupAux [] l = keepFirstRef l := by
  intro n
  induction n with
  | zero =>
    intro l hl
    have : l = [] := List.eq_nil_of_length_eq_zero (Nat.le_zero.mp hl)
    subst this
    rw [keepFirstRef]
    rfl
  | succ n ih =>
    intro l hl
    cases l with
    | nil =>
      rw [keepFirstRef]
      rfl
    | cons a l =>
      show (if a ∈ ([] : List α) then dedupAux [] l else a :: dedupAux [a] l)
        = keepFirstRef (a :: l)
      rw [if_neg (List.not_mem_nil a), keepFirstRef]
      refine congrArg (a :: ·) ?_
      rw [dedupAux_cons_seen a l []]
      apply ih
      have h1 : (l.filter (fun x => decide (x ≠ a))).length ≤ l.length :=
        List.length_filter_le _ _
      have h2 : l.length + 1 ≤ n + 1 := by simpa using hl
      omega

theorem drop_duplicates_eq_keepFirstRef {α : Type} [DecidableEq α] (l : List α) :
    drop_duplicates l = keepFirstRef l :=
  dedupAux_nil_eq_keepFirstRef l.length l (Nat.le_refl _)

theorem rect_row_length {t : Table} (ht : rect t = true) {r : List Cell}
    (hr : r ∈ t.rows) : r.length = t.header.length := by
  have h := List.all_eq_true.mp ht r hr
  simpa using h

theorem length_fillsOf (stat : List ℚ → ℚ) (t : Table) :
    (fillsOf stat t).length = t.header.length := by
  unfold fillsOf
  rw [List.length_map, List.length_range]

theorem getD_zipWith_applyFill {r : List Cell} {fills : List (Option ℚ)} {j : Nat}
    (hlen : r.length = fills.length) :
    (List.zipWith applyFill r fills).getD j Cell.missing
      = applyFill (r.getD j Cell.missing) (fills.getD j none) := by
  rw [List.getD_eq_getElem?_getD, List.getD_eq_getElem?_getD,
    List.getD_eq_getElem?_getD, List.getElem?_zipWith]
  by_cases hj : j < r.length
  · rw [List.getElem?_eq_getElem hj,
      List.getElem?_eq_getElem (show j < fills.length by omega)]
    rfl
  · rw [List.getElem?_eq_none (show r.length ≤ j by omega),
      List.getElem?_eq_none (show fills.length ≤ j by omega)]
    rfl

theorem colCells_fillNumeric (stat : List ℚ → ℚ) {t : Table} (ht : rect t = true)
    (j : Nat) :
    colCells (fillNumeric stat t) j
      = (colCells t j).map (fun c => applyFill c ((fillsOf stat t).getD j none)) := by
  unfold colCells fillNumeric
  simp only [List.map_map]
  apply List.map_congr_left
  intro r hr
  show (List.zipWith applyFill r (fillsOf stat t)).getD j Cell.missing
    = applyFill (r.getD j Cell.missing) ((fillsOf stat t).getD j none)
  exact getD_zipWith_applyFill (by rw [rect_row_length ht hr, length_fillsOf])

theorem fillsOf_getD {stat : List ℚ → ℚ} {t : Table} {j : Nat}
    (hj : j < t.header.length) :
    (fillsOf stat t).getD j none = fillValue stat (colCells t j) := by
  unfold fillsOf
  rw [List.getD_eq_getElem?_getD, List.getElem?_map, List.getElem?_range hj]
  rfl

theorem applyFill_none (c : Cell) : applyFill c none = c := by
  cases c <;> rfl

theorem colCells_fillNumeric_self (stat : List ℚ → ℚ) {t : Table}
    (ht : rect t = true) {j : Nat}
    (hnone : (fillsOf stat t).getD j none = none) :
    colCells (fillNumeric stat t) j = colCells t j := by
  rw [colCells_fillNumeric stat ht j, hnone]
  exact (List.map_congr_left (fun c _ => applyFill_none c)).trans (List.map_id' _)

theorem runStages_append_error (e : String) :
    ∀ (pre : List Stage) (t t' : Table), runStages t pre = Except.ok t' →
      ∀ post : List Stage,
        runStages t (pre ++ (fun _ => Except.error e) :: post) = Except.error e := by
  intro pre
  induction pre with
  | nil =>
    intro t t' h post
    rfl
  | cons f fs ih =>
    intro t t' h post
    simp only [List.cons_append]
    simp only [runStages] at h ⊢
    cases hf : f t with
    | ok t2 =>
      rw [hf] at h
      exact ih t2 t' h post
    | error e2 =>
      rw [hf] at h
      exact Except.noConfusion h

theorem asciiOnlySpaceWs_spec {t : Table} (h : asciiOnlySpaceWs t = true)
    {s : String} (hs : s ∈ t.header) :
    ∀ c ∈ s.data, c.toNat < 128 ∧ (pyIsSpace c = true → c.toNat = 32) := by
  intro c hc
  have h1 := List.all_eq_true.mp (List.all_eq_true.mp h s hs) c hc
  rw [Bool.and_eq_true] at h1
  obtain ⟨ha, hb⟩ := h1
  refine ⟨of_decide_eq_true ha, ?_⟩
  intro hsp
  rw [Bool.or_eq_true] at hb
  rcases hb with hb | hb
  · rw [hsp] at hb
    exact absurd hb (by decide)
  · exact of_decide_eq_true hb

theorem replaceSpacesRec_eq (l : List Char) :
    replaceSpacesRec l = replaceSpaceUnderscore l := by
  induction l with
  | nil => rfl
  | cons c cs ih =>
    show (if c.toNat = 32 then '_' else c) :: replaceSpacesRec cs = _
    rw [ih]
    rfl

theorem cleanName_eq_amendedRefName (s : String) :
    cleanName s = amendedRefName s := by
  unfold cleanName amendedRefName
  rw [replaceSpacesRec_eq]

theorem isMissing_eq_false_iff {c : Cell} :
    Cell.isMissing c = false ↔ c ≠ Cell.missing := by
  cases c <;> simp [Cell.isMissing]

theorem keepPred_eq (r : List Cell) :
    (!r.any Cell.isMissing) = decide (∀ c ∈ r, c ≠ Cell.missing) := by
  rw [Bool.eq_iff_iff, Bool.not_eq_true', List.any_eq_false, decide_eq_true_eq]
  simp only [Bool.not_eq_true, isMissing_eq_false_iff]

theorem fillValue_none_of_nonNumeric (stat : List ℚ → ℚ) {cells : List Cell}
    (h : numericCells cells = false) : fillValue stat cells = none := by
  unfold fillValue
  rw [if_neg (by simp [h])]

theorem fillValue_none_of_no_vals (stat : List ℚ → ℚ) {cells : List Cell}
    (h : cellVals cells = []) : fillValue stat cells = none := by
  unfold fillValue
  by_cases hn : numericCells cells = true
  · rw [if_pos hn, if_pos h]
  · rw [if_neg hn]

/-- Claim C1, counterexample: on the column name consisting of the letter a,
two spaces, and the letter b, the code produces a name with two underscores
while the spec's reference transform (whitespace runs collapse to a single
underscore) produces one. -/
theorem claim_C1_counterexample :
    (clean_column_names ⟨["a  b"], []⟩).header ≠ ["a  b"].map specRefName
    ∧ (clean_column_names ⟨["a  b"], []⟩).header = ["a__b"]
    ∧ ["a  b"].map specRefName = ["a_b"] := by
  refine ⟨?_, by decide, by decide⟩
  decide

/-- Claim C1, amended: the Column Name Normalizer returns a table with
identical cell data and identical row/column counts, and with each column
name equal to the result of the reference transform amended to replace each
space character (rather than each whitespace run) with an underscore:
trim, lowercase, replace each space by an underscore, strip every character
that is not alphanumeric, underscore, or whitespace. -/
theorem claim_C1_amended (t : Table) :
    (clean_column_names t).rows = t.rows
    ∧ (clean_column_names t).header = t.header.map amendedRefName
    ∧ (clean_column_names t).header.length = t.header.length
    ∧ (clean_column_names t).rows.length = t.rows.length := by
  refine ⟨rfl, ?_, ?_, rfl⟩
  · show t.header.map cleanName = t.header.map amendedRefName
    exact List.map_congr_left (fun s _ => cleanName_eq_amendedRefName s)
  · show (t.header.map cleanName).length = t.header.length
    exact List.length_map _ _

/-- Claim C6, counterexample: a tab between two letters survives the whole
transform (a tab is whitespace, hence kept by the punctuation filter and not
replaced by the space substitution), so the output name does not match the
pattern of lowercase letters, digits and underscores. -/
theorem claim_C6_counterexample :
    (clean_column_names ⟨["a\tb"], []⟩).header.all matchesSnake = false := by
  decide

/-- Claim C6, amended: for every table whose column names consist only of
ASCII characters and contain no whitespace other than the space character,
every column name in the output of the Column Name Normalizer consists only
of ASCII lowercase letters, ASCII digits, and underscores.  (The ASCII
restriction is forced because the source's regex classes are Unicode-aware:
a non-ASCII word character such as a letter with an accent passes the
punctuation filter and survives into the output.) -/
theorem claim_C6_amended (t : Table) (h : asciiOnlySpaceWs t = true) :
    (clean_column_names t).header.all matchesSnake = true := by
  show (t.header.map cleanName).all matchesSnake = true
  rw [List.all_eq_true]
  intro name hname
  obtain ⟨s, hs, rfl⟩ := List.mem_map.mp hname
  exact matchesSnake_cleanName
    (fun c hc hsp => (asciiOnlySpaceWs_spec h hs c hc).2 hsp)

/-- Witness for the amended claim C6 at a concrete table. -/
theorem claim_C6_witness :
    asciiOnlySpaceWs ⟨["Total Sales", "A B c"], []⟩ = true
    ∧ (clean_column_names ⟨["Total Sales", "A B c"], []⟩).header.all
        matchesSnake = true :=
  ⟨by decide, claim_C6_amended ⟨["Total Sales", "A B c"], []⟩ (by decide)⟩

/-- Claim C7, counterexample: the name consisting of the letter a, a tab and
an exclamation mark normalizes to the letter a followed by a tab (the bang
is stripped after the whitespace trim), and normalizing again strips the
now-trailing tab, so the normalizer is not idempotent. -/
theorem claim_C7_counterexample :
    clean_column_names (clean_column_names ⟨["a\t!"], []⟩)
      ≠ clean_column_names ⟨["a\t!"], []⟩ := by
  decide

/-- Claim C7, amended: the Column Name Normalizer is idempotent on every
table whose column names consist only of ASCII characters and contain no
whitespace other than the space character.  (The ASCII restriction is
forced because the source's whitespace handling is Unicode-aware: a
non-ASCII whitespace character such as NBSP is no space, survives the
punctuation filter as whitespace, and can be exposed at the end of the name
by the filter, where the second pass strips it.) -/
theorem claim_C7_amended (t : Table) (h : asciiOnlySpaceWs t = true) :
    clean_column_names (clean_column_names t) = clean_column_names t := by
  show Table.mk ((t.header.map cleanName).map cleanName) t.rows
    = Table.mk (t.header.map cleanName) t.rows
  rw [List.map_map]
  exact congrArg (Table.mk · t.rows)
    (List.map_congr_left (fun s hs =>
      cleanName_fix (matchesSnake_cleanName
        (fun c hc hsp => (asciiOnlySpaceWs_spec h hs c hc).2 hsp))))

/-- Witness for the amended claim C7 at a concrete table. -/
theorem claim_C7_witness :
    asciiOnlySpaceWs ⟨["Total Sales", "A B c"], [[Cell.num 1], [Cell.num 2]]⟩ = true
    ∧ clean_column_names (clean_column_names
        ⟨["Total Sales", "A B c"], [[Cell.num 1], [Cell.num 2]]⟩)
      = clean_column_names ⟨["Total Sales", "A B c"], [[Cell.num 1], [Cell.num 2]]⟩ :=
  ⟨by decide,
    claim_C7_amended ⟨["Total Sales", "A B c"], [[Cell.num 1], [Cell.num 2]]⟩
      (by decide)⟩

/-- Claim C2: for every table and every numeric column with at least one
non-missing value, the FillMean policy replaces each missing cell of that
column with the arithmetic mean of the column's non-missing values and
leaves every other cell unchanged; on the numeric column 1, null, 3 the
result is 1, 2, 3. -/
theorem claim_C2 :
    (∀ (t : Table) (j : Nat), rect t = true → j < t.header.length →
      numericCells (colCells t j) = true → cellVals (colCells t j) ≠ [] →
      colCells (handle_missing_values t "Fill with mean") j
        = (colCells t j).map (fun c =>
            if c = Cell.missing then Cell.num (meanQ (cellVals (colCells t j))) else c))
    ∧ handle_missing_values ⟨["x"], [[Cell.num 1], [Cell.missing], [Cell.num 3]]⟩
        "Fill with mean"
      = ⟨["x"], [[Cell.num 1], [Cell.num 2], [Cell.num 3]]⟩ := by
  constructor
  · intro t j ht hj hnum hne
    have h0 : handle_missing_values t "Fill with mean" = fillNumeric meanQ t := rfl
    rw [h0, colCells_fillNumeric meanQ ht j, fillsOf_getD hj]
    have hfv : fillValue meanQ (colCells t j)
        = some (meanQ (cellVals (colCells t j))) := by
      unfold fillValue
      rw [if_pos hnum, if_neg hne]
    rw [hfv]
    apply List.map_congr_left
    intro c _
    cases c <;> simp [applyFill]
  · have h : meanQ [1, 3] = 2 := by norm_num [meanQ]
    have h2 : fillsOf meanQ ⟨["x"], [[Cell.num 1], [Cell.missing], [Cell.num 3]]⟩
        = [some 2] := by
      show [some (meanQ [1, 3])] = [some 2]
      rw [h]
    show fillNumeric meanQ _ = _
    unfold fillNumeric
    rw [h2]
    rfl

/-- Witness for claim C2: the general statement applied to the concrete
three-row table with its single numeric column. -/
theorem claim_C2_witness :
    colCells (handle_missing_values
        ⟨["x"], [[Cell.num 1], [Cell.missing], [Cell.num 3]]⟩ "Fill with mean") 0
      = (colCells ⟨["x"], [[Cell.num 1], [Cell.missing], [Cell.num 3]]⟩ 0).map
          (fun c =>
            if c = Cell.missing then
              Cell.num (meanQ (cellVals
                (colCells ⟨["x"], [[Cell.num 1], [Cell.missing], [Cell.num 3]]⟩ 0)))
            else c) :=
  claim_C2.1 ⟨["x"], [[Cell.num 1], [Cell.missing], [Cell.num 3]]⟩ 0
    (by decide) (by decide) (by decide) (by decide)

/-- Claim C3: the Duplicate Row Remover keeps exactly the first occurrence
of each distinct row in their original order (it equals the reference
keep-first deduplication), reports a removed count equal to the original
row count minus the resulting row count, and behaves as the spec's scenario
demands on the three-row example with one duplicate. -/
theorem claim_C3 :
    (∀ t : Table,
      (remove_duplicates t).1.header = t.header
      ∧ (remove_duplicates t).1.rows = keepFirstRef t.rows
      ∧ (remove_duplicates t).2
          = t.rows.length - (remove_duplicates t).1.rows.length)
    ∧ remove_duplicates ⟨["c1", "c2"],
        [[Cell.num 1, Cell.text "a"], [Cell.num 1, Cell.text "a"],
         [Cell.num 2, Cell.text "b"]]⟩
      = (⟨["c1", "c2"],
          [[Cell.num 1, Cell.text "a"], [Cell.num 2, Cell.text "b"]]⟩, 1) :=
  ⟨fun t => ⟨rfl, drop_duplicates_eq_keepFirstRef t.rows, rfl⟩, by decide⟩

/-- Claim C4: the RemoveRows policy keeps exactly the rows with no missing
cell (in order), so the result has zero missing cells, each surviving row is
an unmodified input row (the output rows form a sublist of the input rows),
the column count is unchanged, and the row count does not grow. -/
theorem claim_C4 (t : Table) :
    (handle_missing_values t "Remove rows").rows
        = t.rows.filter (fun r => decide (∀ c ∈ r, c ≠ Cell.missing))
    ∧ hasMissingValues (handle_missing_values t "Remove rows") = false
    ∧ (handle_missing_values t "Remove rows").header = t.header
    ∧ (handle_missing_values t "Remove rows").rows.Sublist t.rows
    ∧ (handle_missing_values t "Remove rows").rows.length ≤ t.rows.length := by
  have hout : handle_missing_values t "Remove rows"
      = { t with rows := t.rows.filter (fun r => !r.any Cell.isMissing) } := rfl
  refine ⟨?_, ?_, rfl, ?_, ?_⟩
  · rw [hout]
    exact List.filter_congr (fun r _ => keepPred_eq r)
  · rw [hout]
    unfold hasMissingValues
    rw [List.any_eq_false]
    intro r hr
    obtain ⟨_, hp⟩ := List.mem_filter.mp hr
    simpa using hp
  · rw [hout]
    exact List.filter_sublist t.rows
  · rw [hout]
    exact List.length_filter_le _ t.rows

/-- Claim C5: the FillZero policy replaces every missing cell in every
column with the number 0 and leaves every other cell unchanged, so the
result has zero missing cells and unchanged row and column counts. -/
theorem claim_C5 (t : Table) :
    (handle_missing_values t "Fill with zero").rows
        = t.rows.map (fun r => r.map fillZeroCell)
    ∧ hasMissingValues (handle_missing_values t "Fill with zero") = false
    ∧ (handle_missing_values t "Fill with zero").header = t.header
    ∧ (handle_missing_values t "Fill with zero").rows.length = t.rows.length := by
  refine ⟨rfl, ?_, rfl, ?_⟩
  · unfold hasMissingValues
    show (t.rows.map (fun r => r.map fillZeroCell)).any
        (fun r => r.any Cell.isMissing) = false
    rw [List.any_eq_false]
    intro r hr
    obtain ⟨r0, _, rfl⟩ := List.mem_map.mp hr
    rw [Bool.not_eq_true, List.any_map, List.any_eq_false]
    intro c _
    cases c <;> exact fun hx => nomatch hx
  · show (t.rows.map (fun r => r.map fillZeroCell)).length = t.rows.length
    exact List.length_map _ _

/-- Claim C8: under FillMean and FillMedian, a column that is not numeric is
left completely unchanged (its cells, including its missing cells, and the
column names of the table). -/
theorem claim_C8 (t : Table) (j : Nat) (ht : rect t = true)
    (hj : j < t.header.length) (hnn : numericCells (colCells t j) = false) :
    colCells (handle_missing_values t "Fill with mean") j = colCells t j
    ∧ colCells (handle_missing_values t "Fill with median") j = colCells t j
    ∧ (handle_missing_values t "Fill with mean").header = t.header
    ∧ (handle_missing_values t "Fill with median").header = t.header := by
  refine ⟨?_, ?_, rfl, rfl⟩
  · show colCells (fillNumeric meanQ t) j = colCells t j
    exact colCells_fillNumeric_self meanQ ht
      (by rw [fillsOf_getD hj]; exact fillValue_none_of_nonNumeric meanQ hnn)
  · show colCells (fillNumeric medianQ t) j = colCells t j
    exact colCells_fillNumeric_self medianQ ht
      (by rw [fillsOf_getD hj]; exact fillValue_none_of_nonNumeric medianQ hnn)

/-- Witness for claim C8 at a concrete table with a text column containing a
missing cell. -/
theorem claim_C8_witness :
    colCells (handle_missing_values
        ⟨["s"], [[Cell.text "u"], [Cell.missing]]⟩ "Fill with mean") 0
      = colCells ⟨["s"], [[Cell.text "u"], [Cell.missing]]⟩ 0
    ∧ colCells (handle_missing_values
        ⟨["s"], [[Cell.text "u"], [Cell.missing]]⟩ "Fill with median") 0
      = colCells ⟨["s"], [[Cell.text "u"], [Cell.missing]]⟩ 0
    ∧ (handle_missing_values
        ⟨["s"], [[Cell.text "u"], [Cell.missing]]⟩ "Fill with mean").header
      = (⟨["s"], [[Cell.text "u"], [Cell.missing]]⟩ : Table).header
    ∧ (handle_missing_values
        ⟨["s"], [[Cell.text "u"], [Cell.missing]]⟩ "Fill with median").header
      = (⟨["s"], [[Cell.text "u"], [Cell.missing]]⟩ : Table).header :=
  claim_C8 ⟨["s"], [[Cell.text "u"], [Cell.missing]]⟩ 0
    (by decide) (by decide) (by decide)

/-- Claim C9: any exception raised by a stage of the upload-through-render
pipeline aborts all the remaining stages and surfaces exactly one message to
the user, namely the fixed prefix followed by the exception's description. -/
theorem claim_C9 (pre post : List Stage) (t t' : Table) (e : String)
    (h : runStages t pre = Except.ok t') :
    run_pipeline t (pre ++ (fun _ => Except.error e) :: post)
      = Sum.inr ("An error occurred: " ++ e) := by
  unfold run_pipeline
  rw [runStages_append_error e pre t t' h post]

/-- Witness for claim C9: a pipeline whose very first stage raises. -/
theorem claim_C9_witness :
    run_pipeline ⟨[], []⟩ ([] ++ (fun _ => Except.error "boom") :: [])
      = Sum.inr ("An error occurred: " ++ "boom") :=
  claim_C9 [] [] ⟨[], []⟩ ⟨[], []⟩ "boom" rfl

/-- Claim C10: on a column whose cells are all missing, FillMean and
FillMedian change nothing (the pandas mean/median of no values is NaN and
filling with NaN is a no-op), so every cell of the column stays missing and
no fabricated value is substituted. -/
theorem claim_C10 (t : Table) (j : Nat) (ht : rect t = true)
    (hall : ∀ c ∈ colCells t j, c = Cell.missing) :
    colCells (handle_missing_values t "Fill with mean") j = colCells t j
    ∧ colCells (handle_missing_values t "Fill with median") j = colCells t j
    ∧ (∀ c ∈ colCells (handle_missing_values t "Fill with mean") j,
        c = Cell.missing)
    ∧ (∀ c ∈ colCells (handle_missing_values t "Fill with median") j,
        c = Cell.missing) := by
  have hvals : cellVals (colCells t j) = [] := by
    apply List.filterMap_eq_nil_iff.mpr
    intro c hc
    rw [hall c hc]
  have hnone : (fillsOf meanQ t).getD j none = none := by
    by_cases hj : j < t.header.length
    · rw [fillsOf_getD hj]
      exact fillValue_none_of_no_vals meanQ hvals
    · rw [List.getD_eq_getElem?_getD,
        List.getElem?_eq_none (by rw [length_fillsOf]; omega)]
      rfl
  have hnone2 : (fillsOf medianQ t).getD j none = none := by
    by_cases hj : j < t.header.length
    · rw [fillsOf_getD hj]
      exact fillValue_none_of_no_vals medianQ hvals
    · rw [List.getD_eq_getElem?_getD,
        List.getElem?_eq_none (by rw [length_fillsOf]; omega)]
      rfl
  have hmean : colCells (handle_missing_values t "Fill with mean") j
      = colCells t j := by
    show colCells (fillNumeric meanQ t) j = colCells t j
    exact colCells_fillNumeric_self meanQ ht hnone
  have hmedian : colCells (handle_missing_values t "Fill with median") j
      = colCells t j := by
    show colCells (fillNumeric medianQ t) j = colCells t j
    exact colCells_fillNumeric_self medianQ ht hnone2
  refine ⟨hmean, hmedian, ?_, ?_⟩
  · intro c hc
    rw [hmean] at hc
    exact hall c hc
  · intro c hc
    rw [hmedian] at hc
    exact hall c hc

/-- Witness for claim C10 at a concrete table whose single numeric-dtype
column is entirely missing. -/
theorem claim_C10_witness :
    colCells (handle_missing_values
        ⟨["x"], [[Cell.missing], [Cell.missing]]⟩ "Fill with mean") 0
      = colCells ⟨["x"], [[Cell.missing], [Cell.missing]]⟩ 0
    ∧ colCells (handle_missing_values
        ⟨["x"], [[Cell.missing], [Cell.missing]]⟩ "Fill with median") 0
      = colCells ⟨["x"], [[Cell.missing], [Cell.missing]]⟩ 0
    ∧ (∀ c ∈ colCells (handle_missing_values
        ⟨["x"], [[Cell.missing], [Cell.missing]]⟩ "Fill with mean") 0,
        c = Cell.missing)
    ∧ (∀ c ∈ colCells (handle_missing_values
        ⟨["x"], [[Cell.missing], [Cell.missing]]⟩ "Fill with median") 0,
        c = Cell.missing) :=
  claim_C10 ⟨["x"], [[Cell.missing], [Cell.missing]]⟩ 0 (by decide) (by decide)
